import Mathlib

/-!
Verification of the space-to-batch convolution converter
(`tensorflow/compiler/xla/service/space_to_batch_converter.cc`).

The development shallowly embeds the pass's arithmetic and bookkeeping:
machine `int64` quantities become `Int`, tensors restricted to the two
tracked axes (batch, space) become `Tensor2`, and the pass's side tables
become explicit state records.
-/

namespace SpaceToBatch

/-- Ceiling division on `Int`, modelling `tensorflow::CeilOfRatio` for a
positive divisor (the only way the pass uses it): exact mathematical
ceiling of `a / b`. -/
def ceilQuot (a b : Int) : Int := Int.ediv (a + b - 1) b

/-- The per-axis window attributes of an XLA convolution / windowed op
(`xla::WindowDimension`), restricted to the fields the pass reads. -/
structure WindowDimension where
  size : Int
  stride : Int
  paddingLow : Int
  paddingHigh : Int
  baseDilation : Int
  windowDilation : Int
  deriving Repr, DecidableEq

/-- The static per-convolution attributes read by
`IsConvSuitableForSpaceToBatch` and `GetConvolutionDetails`: the window
dimension on the chosen (last) spatial axis, the kernel extent on the
chosen kernel spatial axis, the activations extent on the chosen input
spatial axis and on the input batch axis, the number of spatial
dimensions, and the batch group count. -/
structure ConvData where
  inputSpatialDimensionsSize : Nat
  batchGroupCount : Int
  window : WindowDimension
  kernelSpatialDimSize : Int
  inputDimSize : Int
  oldBatchSize : Int
  deriving Repr, DecidableEq

/-- The derived geometric quantities of `ConvolutionVisitor::ConvDetails`
(the chosen spatial-axis index is omitted: it is dimension bookkeeping,
not arithmetic). -/
structure ConvDetails where
  inherentLowPadding : Int
  inherentHighPadding : Int
  stride : Int
  spatialSize : Int
  baseDilationFactor : Int
  haloSize : Int
  highPaddingForConv : Int
  lowPaddingForConv : Int
  kernelSpatialDimSize : Int
  inputDimSize : Int
  deriving Repr, DecidableEq

/-- `ConvolutionVisitor::GetConvolutionDetails` (space_to_batch_converter.cc,
lines 1937-1996). -/
def GetConvolutionDetails (conv : ConvData) : ConvDetails :=
  let kernel_spatial_dim_size := conv.kernelSpatialDimSize
  let input_dim_size := conv.inputDimSize
  let inherent_low_padding := conv.window.paddingLow
  let inherent_high_padding := conv.window.paddingHigh
  let stride := conv.window.stride
  let base_dilation_factor := conv.window.baseDilation
  let spatial_size := input_dim_size +
      (if base_dilation_factor > 1 then 0 else inherent_low_padding) +
      inherent_high_padding
  let halo_size :=
      max (kernel_spatial_dim_size - stride - (base_dilation_factor - 1)) 0
  let high_padding_for_conv :=
      if base_dilation_factor = 1 then 0
      else if inherent_low_padding = 0 then base_dilation_factor - 1
      else 0
  let low_padding_for_conv :=
      if base_dilation_factor = 1 then 0 else inherent_low_padding
  { inherentLowPadding := inherent_low_padding
    inherentHighPadding := inherent_high_padding
    stride := stride
    spatialSize := spatial_size
    baseDilationFactor := base_dilation_factor
    haloSize := halo_size
    highPaddingForConv := high_padding_for_conv
    lowPaddingForConv := low_padding_for_conv
    kernelSpatialDimSize := kernel_spatial_dim_size
    inputDimSize := input_dim_size }

/-- The fixed target batch size `ConvolutionVisitor::kNewBatchSize`. -/
def kNewBatchSize : Int := 8

/-- `ConvolutionVisitor::IsConvSuitableForSpaceToBatch`
(space_to_batch_converter.cc, lines 220-290), with the member
`limit_on_batch_size_` passed explicitly. -/
def IsConvSuitableForSpaceToBatch (limitOnBatchSize : Int) (conv : ConvData) :
    Bool :=
  if conv.inputSpatialDimensionsSize < 1 then false
  else if conv.batchGroupCount ≠ 1 then false
  else if conv.window.windowDilation ≠ 1 then false
  else
    let c := GetConvolutionDetails conv
    let low_pad := conv.window.paddingLow
    if c.baseDilationFactor ≠ 1 ∧
        (c.stride ≠ 1 ∨
          (if low_pad = 0 then c.kernelSpatialDimSize ≠ 1
           else c.kernelSpatialDimSize ≠ c.baseDilationFactor + 1 ∨
                low_pad ≠ c.baseDilationFactor - 1)) then false
    else
      let old_batch_size := conv.oldBatchSize
      if old_batch_size > limitOnBatchSize then false
      else if Int.emod kNewBatchSize old_batch_size ≠ 0 then false
      else
        let num_splits := Int.ediv kNewBatchSize old_batch_size
        if c.haloSize > ceilQuot c.spatialSize num_splits then false
        else true

/-- C2: `GetConvolutionDetails` computes exactly
`spatial_size = input_dim_size + (base_dilation > 1 ? 0 : inherent_low_padding)
+ inherent_high_padding`,
`halo_size = max(kernel_spatial_size - stride - (base_dilation - 1), 0)`,
`high_padding_for_conv = base_dilation = 1 ? 0 : (inherent_low_padding = 0 ?
base_dilation - 1 : 0)` and
`low_padding_for_conv = base_dilation = 1 ? 0 : inherent_low_padding`,
as exact integer arithmetic over the convolution's static window attributes
on the chosen spatial axis. -/
theorem getConvolutionDetails_formulas (conv : ConvData) :
    (GetConvolutionDetails conv).spatialSize =
        conv.inputDimSize +
          (if conv.window.baseDilation > 1 then 0 else conv.window.paddingLow) +
          conv.window.paddingHigh ∧
    (GetConvolutionDetails conv).haloSize =
        max (conv.kernelSpatialDimSize - conv.window.stride -
              (conv.window.baseDilation - 1)) 0 ∧
    (GetConvolutionDetails conv).highPaddingForConv =
        (if conv.window.baseDilation = 1 then 0
         else if conv.window.paddingLow = 0 then conv.window.baseDilation - 1
         else 0) ∧
    (GetConvolutionDetails conv).lowPaddingForConv =
        (if conv.window.baseDilation = 1 then 0 else conv.window.paddingLow) :=
  ⟨rfl, rfl, rfl, rfl⟩

/-- C1: `IsConvSuitableForSpaceToBatch` returns true iff the convolution has
at least one spatial dimension, `batch_group_count = 1`, window dilation 1 on
the chosen spatial axis, the base-dilation compatibility condition holds, the
input batch size is at most the limit and evenly divides the fixed target new
batch size 8, and the halo size is at most `ceil(spatial_size / num_splits)`
with `num_splits = 8 / old batch size`.  Stated for a well-formed window
(base dilation at least 1, as XLA window verification guarantees) and a
positive batch extent. -/
theorem isConvSuitable_iff (limit : Int) (conv : ConvData)
    (hbd : 1 ≤ conv.window.baseDilation) (hob : 0 < conv.oldBatchSize) :
    IsConvSuitableForSpaceToBatch limit conv = true ↔
      (1 ≤ conv.inputSpatialDimensionsSize ∧
       conv.batchGroupCount = 1 ∧
       conv.window.windowDilation = 1 ∧
       (1 < conv.window.baseDilation →
          conv.window.stride = 1 ∧
          ((conv.window.paddingLow = 0 ∧ conv.kernelSpatialDimSize = 1) ∨
           (conv.kernelSpatialDimSize = conv.window.baseDilation + 1 ∧
            conv.window.paddingLow = conv.window.baseDilation - 1))) ∧
       conv.oldBatchSize ≤ limit ∧
       conv.oldBatchSize ∣ kNewBatchSize ∧
       (GetConvolutionDetails conv).haloSize ≤
         ceilQuot (GetConvolutionDetails conv).spatialSize
           (Int.ediv kNewBatchSize conv.oldBatchSize)) := by
  have hc1 : (GetConvolutionDetails conv).baseDilationFactor =
      conv.window.baseDilation := rfl
  have hc2 : (GetConvolutionDetails conv).stride = conv.window.stride := rfl
  have hc3 : (GetConvolutionDetails conv).kernelSpatialDimSize =
      conv.kernelSpatialDimSize := rfl
  unfold IsConvSuitableForSpaceToBatch
  simp only [hc1, hc2, hc3]
  by_cases h1 : conv.inputSpatialDimensionsSize < 1
  · rw [if_pos h1]
    simp only [Bool.false_eq_true, false_iff]
    rintro ⟨ha, -⟩; omega
  · rw [if_neg h1]
    by_cases h2 : conv.batchGroupCount ≠ 1
    · rw [if_pos h2]
      simp only [Bool.false_eq_true, false_iff]
      rintro ⟨-, ha, -⟩; exact h2 ha
    · rw [if_neg h2]
      by_cases h3 : conv.window.windowDilation ≠ 1
      · rw [if_pos h3]
        simp only [Bool.false_eq_true, false_iff]
        rintro ⟨-, -, ha, -⟩; exact h3 ha
      · rw [if_neg h3]
        by_cases hD : conv.window.baseDilation ≠ 1 ∧
            (conv.window.stride ≠ 1 ∨
              (if conv.window.paddingLow = 0 then conv.kernelSpatialDimSize ≠ 1
               else conv.kernelSpatialDimSize ≠ conv.window.baseDilation + 1 ∨
                    conv.window.paddingLow ≠ conv.window.baseDilation - 1))
        · rw [if_pos hD]
          simp only [Bool.false_eq_true, false_iff]
          rintro ⟨-, -, -, hcond, -⟩
          obtain ⟨hne, hbad⟩ := hD
          have hgt : 1 < conv.window.baseDilation := by omega
          obtain ⟨hs, hdisj⟩ := hcond hgt
          rcases hbad with hbad | hbad
          · exact hbad hs
          · by_cases hlp : conv.window.paddingLow = 0
            · rw [if_pos hlp] at hbad
              rcases hdisj with ⟨-, hk⟩ | ⟨-, hlp2⟩
              · exact hbad hk
              · omega
            · rw [if_neg hlp] at hbad
              rcases hdisj with ⟨hlp2, -⟩ | ⟨hk, hlp2⟩
              · exact hlp hlp2
              · rcases hbad with hbad | hbad
                · exact hbad hk
                · exact hbad hlp2
        · rw [if_neg hD]
          by_cases h5 : conv.oldBatchSize > limit
          · rw [if_pos h5]
            simp only [Bool.false_eq_true, false_iff]
            rintro ⟨-, -, -, -, ha, -⟩; omega
          · rw [if_neg h5]
            by_cases h6 : Int.emod kNewBatchSize conv.oldBatchSize ≠ 0
            · rw [if_pos h6]
              simp only [Bool.false_eq_true, false_iff]
              rintro ⟨-, -, -, -, -, hdvd, -⟩
              exact h6 (Int.emod_eq_zero_of_dvd hdvd)
            · rw [if_neg h6]
              by_cases h7 : (GetConvolutionDetails conv).haloSize >
                  ceilQuot (GetConvolutionDetails conv).spatialSize
                    (Int.ediv kNewBatchSize conv.oldBatchSize)
              · rw [if_pos h7]
                simp only [Bool.false_eq_true, false_iff]
                rintro ⟨-, -, -, -, -, -, ha⟩; omega
              · rw [if_neg h7]
                simp only [true_iff]
                have h6' : Int.emod kNewBatchSize conv.oldBatchSize = 0 :=
                  not_not.mp h6
                refine ⟨by omega, by omega, by omega, ?_, by omega,
                  Int.dvd_of_emod_eq_zero h6', by omega⟩
                intro hgt
                rw [not_and_or] at hD
                rcases hD with hD | hD
                · omega
                rw [not_or] at hD
                obtain ⟨hs, hrest⟩ := hD
                refine ⟨by omega, ?_⟩
                by_cases hlp : conv.window.paddingLow = 0
                · rw [if_pos hlp] at hrest
                  exact Or.inl ⟨hlp, by omega⟩
                · rw [if_neg hlp] at hrest
                  rw [not_or] at hrest
                  exact Or.inr ⟨by omega, by omega⟩

/-- Instantiation of `isConvSuitable_iff` at the concrete convolution of
spec scenario (a): batch 2, spatial extent 16, kernel 3, stride 1, no
padding, no dilation, batch-size limit 8. -/
theorem isConvSuitable_iff_witness :
    IsConvSuitableForSpaceToBatch 8 ⟨2, 1, ⟨3, 1, 0, 0, 1, 1⟩, 3, 16, 2⟩ = true ↔
      (1 ≤ (2 : Nat) ∧ (1 : Int) = 1 ∧ (1 : Int) = 1 ∧
       ((1 : Int) < 1 →
          (1 : Int) = 1 ∧
          (((0 : Int) = 0 ∧ (3 : Int) = 1) ∨
           ((3 : Int) = 1 + 1 ∧ (0 : Int) = 1 - 1))) ∧
       (2 : Int) ≤ 8 ∧
       (2 : Int) ∣ kNewBatchSize ∧
       (GetConvolutionDetails ⟨2, 1, ⟨3, 1, 0, 0, 1, 1⟩, 3, 16, 2⟩).haloSize ≤
         ceilQuot
           (GetConvolutionDetails ⟨2, 1, ⟨3, 1, 0, 0, 1, 1⟩, 3, 16, 2⟩).spatialSize
           (Int.ediv kNewBatchSize 2)) :=
  isConvSuitable_iff 8 ⟨2, 1, ⟨3, 1, 0, 0, 1, 1⟩, 3, 16, 2⟩ (by decide) (by decide)

/-- A tensor restricted to the two axes the pass tracks: the batch axis and
the chosen spatial axis.  All tensor operations in `HaloDuplicateWithSlice`
and `SelectValidPortion` touch only these two axes (start/limit indices and
padding on every other axis stay trivial), so the remaining axes are
spectators and are dropped from the model.  `data` is a total function;
entries outside `batch × space` are irrelevant and all statements are up to
`Tensor2.eqv`. -/
structure Tensor2 (α : Type) where
  batch : Nat
  space : Nat
  data : Nat → Nat → α

/-- Extensional equivalence of `Tensor2`: same extents, same entries inside
the bounds. -/
def Tensor2.eqv {α : Type} (t u : Tensor2 α) : Prop :=
  t.batch = u.batch ∧ t.space = u.space ∧
  ∀ b s, b < t.batch → s < t.space → t.data b s = u.data b s

/-- `MakeSliceHlo` with unit strides, restricted to the two tracked axes.
`ShapeInference::InferSliceShape` rejects a slice whose start indices are
negative or whose limit indices exceed the dimension bounds, which the
caller surfaces as a failed status: modelled by `none`. -/
def sliceHlo {α : Type} (t : Tensor2 α) (bStart bEnd sStart sEnd : Int) :
    Option (Tensor2 α) :=
  if 0 ≤ bStart ∧ bStart ≤ bEnd ∧ bEnd ≤ (t.batch : Int) ∧
     0 ≤ sStart ∧ sStart ≤ sEnd ∧ sEnd ≤ (t.space : Int) then
    some ⟨(bEnd - bStart).toNat, (sEnd - sStart).toNat,
          fun b s => t.data (b + bStart.toNat) (s + sStart.toNat)⟩
  else none

/-- `MakePadHlo` with a padding configuration that edge-pads the two tracked
axes (the only padding `HaloDuplicateWithSlice` performs; interior padding
stays zero). -/
def padHlo {α : Type} (t : Tensor2 α) (v : α) (bLow bHigh sLow sHigh : Nat) :
    Tensor2 α :=
  ⟨t.batch + bLow + bHigh, t.space + sLow + sHigh,
   fun b s =>
     if bLow ≤ b ∧ b < bLow + t.batch ∧ sLow ≤ s ∧ s < sLow + t.space then
       t.data (b - bLow) (s - sLow)
     else v⟩

/-- `MakeConcatHlo` along the tracked space axis.  Concatenation requires the
non-concatenated extents to agree; a mismatch is a shape-inference failure,
modelled by `none`. -/
def concatSpace {α : Type} (t u : Tensor2 α) : Option (Tensor2 α) :=
  if t.batch = u.batch then
    some ⟨t.batch, t.space + u.space,
          fun b s => if s < t.space then t.data b s else u.data b (s - t.space)⟩
  else none

/-- `ConvolutionVisitor::HaloDuplicateWithSlice`
(space_to_batch_converter.cc, lines 292-391), projected onto the two tracked
axes.  The parameters `oldBatchSize`, `highPadding` and
`originalSplitDimSize` are never read by the body, exactly as in the source.
The entry `CHECK_LE(std::abs(halo_size - low_padding), spatial_split_size)`
aborts the process when violated; an aborted or failed call is `none`. -/
def HaloDuplicateWithSlice {α : Type} (activations : Tensor2 α)
    (oldBatchSize lowPadding highPadding haloSize originalSplitDimSize : Int)
    (padVal : α) : Option (Tensor2 α) :=
  let spatialSplitSize : Int := (activations.space : Int)
  let batchSize : Int := (activations.batch : Int)
  if ¬ (|haloSize - lowPadding| ≤ spatialSplitSize) then none
  else
    ((if lowPadding > 0 then
        (sliceHlo activations 0 (batchSize - 1) (spatialSplitSize - lowPadding)
            spatialSplitSize).map (fun t => some (padHlo t padVal 1 0 0 0))
      else some none) : Option (Option (Tensor2 α))).bind fun firstSlice =>
    ((if haloSize - lowPadding > 0 then
        (sliceHlo activations 1 batchSize 0 (haloSize - lowPadding)).map
          (fun t => some (padHlo t padVal 0 1 0 0))
      else some none) : Option (Option (Tensor2 α))).bind fun haloRegion =>
    (if haloSize = 0 ∧ lowPadding ≠ 0 then
        if lowPadding > 0 then
          sliceHlo activations 0 batchSize 0 (spatialSplitSize - lowPadding)
        else sliceHlo activations 0 batchSize (0 - lowPadding) spatialSplitSize
      else some activations).bind fun acts =>
    (Option.elim firstSlice (some acts) (fun fs => concatSpace fs acts)).bind
      fun acts2 =>
    Option.elim haloRegion (some acts2) (fun hr => concatSpace acts2 hr)

/-- The bit the `tensorflow::core::Bitmap` loop of `SelectValidPortion`
computes at linear position `k`. -/
def validMaskBit (newSpaceSize oldSpaceSize numSplits : Nat) (k : Nat) : Bool :=
  let spaceIndex := k % newSpaceSize
  let batchIndex := (k / newSpaceSize) % numSplits
  decide (batchIndex * newSpaceSize + spaceIndex < oldSpaceSize)

/-- `ConvolutionVisitor::SelectValidPortion`
(space_to_batch_converter.cc, lines 1210-1263), projected onto the two
tracked axes.  The R1 mask constant is reshaped to `(new_batch, new_space)`,
so cell `(b, s)` reads linear bit `b * new_space + s`; the select keeps
`new_instr` where the bit is set and the broadcast `select_val` elsewhere.
`CHECK_EQ(new_batch_size % old_batch_size, 0)` aborts when violated,
modelled by `none`. -/
def SelectValidPortion {α : Type} (newInstr : Tensor2 α)
    (oldBatchSize oldSpaceSize : Nat) (selectVal : α) : Option (Tensor2 α) :=
  let newBatchSize := newInstr.batch
  let newSpaceSize := newInstr.space
  if newBatchSize % oldBatchSize ≠ 0 then none
  else
    let numSplits := newBatchSize / oldBatchSize
    some ⟨newBatchSize, newSpaceSize,
      fun b s =>
        if validMaskBit newSpaceSize oldSpaceSize numSplits
            (b * newSpaceSize + s) then
          newInstr.data b s
        else selectVal⟩

/-- Reduction lemma: a slice whose indices are in range yields the offset
window. -/
theorem sliceHlo_eq {α : Type} (t : Tensor2 α) {bStart bEnd sStart sEnd : Int}
    (h : 0 ≤ bStart ∧ bStart ≤ bEnd ∧ bEnd ≤ (t.batch : Int) ∧
         0 ≤ sStart ∧ sStart ≤ sEnd ∧ sEnd ≤ (t.space : Int)) :
    sliceHlo t bStart bEnd sStart sEnd =
      some ⟨(bEnd - bStart).toNat, (sEnd - sStart).toNat,
            fun b s => t.data (b + bStart.toNat) (s + sStart.toNat)⟩ := by
  rw [sliceHlo, if_pos h]

/-- Reduction lemma: concatenation of equal-batch tensors. -/
theorem concatSpace_eq {α : Type} (t u : Tensor2 α) (h : t.batch = u.batch) :
    concatSpace t u =
      some ⟨t.batch, t.space + u.space,
            fun b s => if s < t.space then t.data b s
                       else u.data b (s - t.space)⟩ := by
  rw [concatSpace, if_pos h]

/-- C6: `SelectValidPortion` keeps exactly the cells `(b, s)` with
`(b mod num_splits) * new_space_size + s < old_space_size`, where
`num_splits = new_batch_size / old_batch_size`, and replaces every other
cell by the supplied fill value; the old batch size must divide the new one
(otherwise the `CHECK` aborts). -/
theorem selectValidPortion_spec {α : Type} (newInstr : Tensor2 α)
    (oldBatchSize oldSpaceSize : Nat) (selectVal : α)
    (hdvd : oldBatchSize ∣ newInstr.batch) :
    ∃ r, SelectValidPortion newInstr oldBatchSize oldSpaceSize selectVal =
        some r ∧
      r.batch = newInstr.batch ∧ r.space = newInstr.space ∧
      ∀ b s, b < newInstr.batch → s < newInstr.space →
        r.data b s =
          if (b % (newInstr.batch / oldBatchSize)) * newInstr.space + s <
              oldSpaceSize then
            newInstr.data b s
          else selectVal := by
  have hmod : newInstr.batch % oldBatchSize = 0 := Nat.mod_eq_zero_of_dvd hdvd
  rw [SelectValidPortion]
  rw [if_neg (not_not.mpr hmod)]
  refine ⟨_, rfl, rfl, rfl, ?_⟩
  intro b s hb hs
  have hspace : 0 < newInstr.space := Nat.pos_of_ne_zero (by omega)
  have hsi : (b * newInstr.space + s) % newInstr.space = s := by
    rw [mul_comm b newInstr.space, Nat.mul_add_mod, Nat.mod_eq_of_lt hs]
  have hbi : (b * newInstr.space + s) / newInstr.space = b := by
    rw [mul_comm, Nat.mul_add_div hspace, Nat.div_eq_of_lt hs, Nat.add_zero]
  simp only [validMaskBit, hsi, hbi, decide_eq_true_eq]

/-- The result shape claimed by the specification for
`HaloDuplicateWithSlice` (written from the spec's words, to be compared
against the embedded source function): a first slice holding each split's
previous-neighbor tail (present iff `low_padding > 0`, batch row 0 padded),
the original activations (trimmed by `|low_padding|` exactly when
`halo_size = 0` and `low_padding ≠ 0`), and a halo region holding each
split's next-neighbor head (present iff `halo_size > low_padding`, last
batch row padded), concatenated along the space axis. -/
def haloReference {α : Type} (activations : Tensor2 α)
    (lowPadding haloSize : Int) (padVal : α) : Tensor2 α :=
  let split := activations.space
  let lowLen : Nat := if lowPadding > 0 then lowPadding.toNat else 0
  let midLen : Nat :=
    if haloSize = 0 ∧ lowPadding ≠ 0 then split - lowPadding.natAbs else split
  let haloLen : Nat :=
    if haloSize - lowPadding > 0 then (haloSize - lowPadding).toNat else 0
  ⟨activations.batch, lowLen + midLen + haloLen,
   fun b s =>
     if s < lowLen then
       if b = 0 then padVal
       else activations.data (b - 1) (split - lowLen + s)
     else if s < lowLen + midLen then
       if haloSize = 0 ∧ lowPadding < 0 then
         activations.data b (s + lowPadding.natAbs)
       else activations.data b (s - lowLen)
     else
       if b = activations.batch - 1 then padVal
       else activations.data (b + 1) (s - (lowLen + midLen))⟩

/-- C5 (amended): under the precondition `|halo_size - low_padding| ≤`
the spatial split extent, strengthened with `low_padding ≤` that extent and
a nonempty batch axis, `HaloDuplicateWithSlice` returns exactly the
three-piece concatenation described by the specification. -/
theorem haloDuplicateWithSlice_spec {α : Type} (activations : Tensor2 α)
    (oldBatchSize highPadding originalSplitDimSize lowPadding haloSize : Int)
    (padVal : α)
    (hpre : |haloSize - lowPadding| ≤ (activations.space : Int))
    (hlow : lowPadding ≤ (activations.space : Int))
    (hbatch : 1 ≤ activations.batch) :
    ∃ r, HaloDuplicateWithSlice activations oldBatchSize lowPadding highPadding
        haloSize originalSplitDimSize padVal = some r ∧
      r.eqv (haloReference activations lowPadding haloSize padVal) := by
  obtain ⟨hpreL, hpreR⟩ := abs_le.mp hpre
  rw [HaloDuplicateWithSlice]
  rw [if_neg (not_not.mpr hpre)]
  by_cases h1 : lowPadding > 0
  · have hg1 : (0 : Int) ≤ 0 ∧ (0 : Int) ≤ (activations.batch : Int) - 1 ∧
        (activations.batch : Int) - 1 ≤ (activations.batch : Int) ∧
        (0 : Int) ≤ (activations.space : Int) - lowPadding ∧
        (activations.space : Int) - lowPadding ≤ (activations.space : Int) ∧
        (activations.space : Int) ≤ (activations.space : Int) := by omega
    rw [if_pos h1, sliceHlo_eq activations hg1]
    by_cases h2 : haloSize - lowPadding > 0
    · -- Case A: first slice and halo region both present, no trimming.
      have hg2 : (0 : Int) ≤ 1 ∧ (1 : Int) ≤ (activations.batch : Int) ∧
          (activations.batch : Int) ≤ (activations.batch : Int) ∧
          (0 : Int) ≤ 0 ∧ (0 : Int) ≤ haloSize - lowPadding ∧
          haloSize - lowPadding ≤ (activations.space : Int) := by omega
      have hnz : ¬ (haloSize = 0 ∧ lowPadding ≠ 0) := by
        rintro ⟨h, -⟩; omega
      rw [if_pos h2, sliceHlo_eq activations hg2, if_neg hnz]
      simp only [Option.map_some', Option.some_bind, Option.elim_some]
      rw [concatSpace_eq]
      swap
      · simp only [padHlo]; omega
      simp only [Option.some_bind]
      rw [concatSpace_eq]
      swap
      · simp only [padHlo]; omega
      refine ⟨_, rfl, ?_, ?_, ?_⟩
      · simp only [padHlo, haloReference]
        omega
      · simp only [padHlo, haloReference, if_pos h1, if_neg hnz, if_pos h2]
        omega
      · intro b s hb hs
        simp only [padHlo] at hb hs
        simp only [padHlo, haloReference, if_pos h1, if_neg hnz, if_pos h2]
        split_ifs <;>
          first
            | rfl
            | omega
            | (exfalso; omega)
            | (congr 1 <;> omega)
            | (congr <;> omega)
    · by_cases h3 : haloSize = 0 ∧ lowPadding ≠ 0
      · -- Case B: first slice present, activations trimmed, no halo region.
        obtain ⟨h3a, h3b⟩ := h3
        have hmidB : ¬ (haloSize = 0 ∧ lowPadding < 0) := by
          rintro ⟨-, hb⟩; omega
        have hg3 : (0 : Int) ≤ 0 ∧ (0 : Int) ≤ (activations.batch : Int) ∧
            (activations.batch : Int) ≤ (activations.batch : Int) ∧
            (0 : Int) ≤ 0 ∧
            (0 : Int) ≤ (activations.space : Int) - lowPadding ∧
            (activations.space : Int) - lowPadding ≤ (activations.space : Int) := by
          omega
        rw [if_neg h2, if_pos ⟨h3a, h3b⟩, if_pos h1, sliceHlo_eq activations hg3]
        simp only [Option.map_some', Option.some_bind, Option.elim_some,
          Option.elim_none]
        rw [concatSpace_eq]
        swap
        · simp only [padHlo]; omega
        simp only [Option.some_bind]
        refine ⟨_, rfl, ?_, ?_, ?_⟩
        · simp only [padHlo, haloReference]
          omega
        · simp only [padHlo, haloReference, if_pos h1, if_neg h2,
            if_pos (And.intro h3a h3b)]
          omega
        · intro b s hb hs
          simp only [padHlo] at hb hs
          simp only [padHlo, haloReference, if_pos h1, if_neg h2,
            if_pos (And.intro h3a h3b), if_neg hmidB]
          split_ifs <;>
            first
              | rfl
              | omega
              | (exfalso; omega)
              | (congr 1 <;> omega)
              | (congr <;> omega)
      · -- Case C: first slice present, no trimming, no halo region.
        have hC : haloSize ≠ 0 := fun h => h3 ⟨h, by omega⟩
        have hmidC : ¬ (haloSize = 0 ∧ lowPadding < 0) := by
          rintro ⟨-, hb⟩; omega
        rw [if_neg h2, if_neg h3]
        simp only [Option.map_some', Option.some_bind, Option.elim_some,
          Option.elim_none]
        rw [concatSpace_eq]
        swap
        · simp only [padHlo]; omega
        simp only [Option.some_bind]
        refine ⟨_, rfl, ?_, ?_, ?_⟩
        · simp only [padHlo, haloReference]
          omega
        · simp only [padHlo, haloReference, if_pos h1, if_neg h2, if_neg h3]
          omega
        · intro b s hb hs
          simp only [padHlo] at hb hs
          simp only [padHlo, haloReference, if_pos h1, if_neg h2, if_neg h3,
            if_neg hmidC]
          split_ifs <;>
            first
              | rfl
              | omega
              | (exfalso; omega)
              | (congr 1 <;> omega)
              | (congr <;> omega)
  · rw [if_neg h1]
    by_cases h2 : haloSize - lowPadding > 0
    · have hg2 : (0 : Int) ≤ 1 ∧ (1 : Int) ≤ (activations.batch : Int) ∧
          (activations.batch : Int) ≤ (activations.batch : Int) ∧
          (0 : Int) ≤ 0 ∧ (0 : Int) ≤ haloSize - lowPadding ∧
          haloSize - lowPadding ≤ (activations.space : Int) := by omega
      rw [if_pos h2, sliceHlo_eq activations hg2]
      by_cases h3 : haloSize = 0 ∧ lowPadding ≠ 0
      · -- Case D: trimmed activations followed by the halo region.
        obtain ⟨h3a, h3b⟩ := h3
        have hlneg : lowPadding < 0 := by omega
        have hg4 : (0 : Int) ≤ 0 ∧ (0 : Int) ≤ (activations.batch : Int) ∧
            (activations.batch : Int) ≤ (activations.batch : Int) ∧
            (0 : Int) ≤ 0 - lowPadding ∧
            0 - lowPadding ≤ (activations.space : Int) ∧
            (activations.space : Int) ≤ (activations.space : Int) := by omega
        rw [if_pos ⟨h3a, h3b⟩, if_neg h1, sliceHlo_eq activations hg4]
        simp only [Option.map_some', Option.some_bind, Option.elim_some,
          Option.elim_none]
        rw [concatSpace_eq]
        swap
        · simp only [padHlo]; omega
        refine ⟨_, rfl, ?_, ?_, ?_⟩
        · simp only [padHlo, haloReference]
          omega
        · simp only [padHlo, haloReference, if_neg h1, if_pos h2,
            if_pos (And.intro h3a h3b)]
          omega
        · intro b s hb hs
          simp only [padHlo] at hb hs
          simp only [padHlo, haloReference, if_neg h1, if_pos h2,
            if_pos (And.intro h3a h3b), if_pos (And.intro h3a hlneg)]
          split_ifs <;>
            first
              | rfl
              | omega
              | (exfalso; omega)
              | (congr 1 <;> omega)
              | (congr <;> omega)
      · -- Case E: untrimmed activations followed by the halo region.
        have hmidE : ¬ (haloSize = 0 ∧ lowPadding < 0) := by
          rintro ⟨ha, hb⟩; exact h3 ⟨ha, by omega⟩
        rw [if_neg h3]
        simp only [Option.map_some', Option.some_bind, Option.elim_some,
          Option.elim_none]
        rw [concatSpace_eq]
        swap
        · simp only [padHlo]; omega
        refine ⟨_, rfl, ?_, ?_, ?_⟩
        · simp only [padHlo, haloReference]
        · simp only [padHlo, haloReference, if_neg h1, if_pos h2, if_neg h3]
          omega
        · intro b s hb hs
          simp only [padHlo] at hb hs
          simp only [padHlo, haloReference, if_neg h1, if_pos h2, if_neg h3,
            if_neg hmidE]
          split_ifs <;>
            first
              | rfl
              | omega
              | (exfalso; omega)
              | (congr 1 <;> omega)
              | (congr <;> omega)
    · by_cases h3 : haloSize = 0 ∧ lowPadding ≠ 0
      · -- Impossible: a nonzero low padding that is not positive is negative,
        -- which together with a zero halo forces the halo-region branch.
        exfalso
        obtain ⟨h3a, h3b⟩ := h3
        omega
      · -- Case G: no piece present; the activations pass through unchanged.
        have hmidG : ¬ (haloSize = 0 ∧ lowPadding < 0) := by
          rintro ⟨ha, hb⟩; exact h3 ⟨ha, by omega⟩
        rw [if_neg h2, if_neg h3]
        simp only [Option.some_bind, Option.elim_none]
        refine ⟨_, rfl, ?_, ?_, ?_⟩
        · simp only [haloReference]
        · simp only [haloReference, if_neg h1, if_neg h2, if_neg h3]
          omega
        · intro b s hb hs
          simp only [haloReference, if_neg h1, if_neg h2, if_neg h3,
            if_neg hmidG]
          split_ifs <;>
            first
              | rfl
              | omega
              | (exfalso; omega)
              | (congr 1 <;> omega)
              | (congr <;> omega)

/-- Instantiation of `haloDuplicateWithSlice_spec` at a concrete 2x4 tensor
with low padding 1 and halo size 2. -/
theorem haloDuplicateWithSlice_spec_witness :
    ∃ r, HaloDuplicateWithSlice
        (⟨2, 4, fun b s => b * 10 + s⟩ : Tensor2 Nat) 2 1 0 2 4 0 = some r ∧
      r.eqv (haloReference ⟨2, 4, fun b s => b * 10 + s⟩ 1 2 0) :=
  haloDuplicateWithSlice_spec ⟨2, 4, fun b s => b * 10 + s⟩ 2 0 4 1 2 0
    (by decide) (by decide) (by decide)

/-- C5 counterexample: with spatial split extent 2, low padding 4 and halo
size 2 the claimed precondition `|halo_size - low_padding| ≤ extent` holds
(`|2 - 4| = 2 ≤ 2`), yet `HaloDuplicateWithSlice` does not return any
concatenation: the first slice's start index `2 - 4 = -2` is negative, so
slice shape inference fails and the call errors out. -/
theorem haloDuplicateWithSlice_counterexample :
    |(2 : Int) - 4| ≤
        (((⟨2, 2, fun _ _ => (0 : Nat)⟩ : Tensor2 Nat)).space : Int) ∧
    HaloDuplicateWithSlice
        (⟨2, 2, fun _ _ => (0 : Nat)⟩ : Tensor2 Nat) 1 4 0 2 2 7 = none :=
  ⟨by decide, rfl⟩

/-- Instantiation of `selectValidPortion_spec` at a concrete 4x2 tensor with
old batch size 2 and old space size 3. -/
theorem selectValidPortion_spec_witness :
    ∃ r, SelectValidPortion
        (⟨4, 2, fun b s => b * 10 + s⟩ : Tensor2 Nat) 2 3 99 = some r ∧
      r.batch = 4 ∧ r.space = 2 ∧
      ∀ b s, b < 4 → s < 2 →
        r.data b s = if (b % (4 / 2)) * 2 + s < 3 then b * 10 + s else 99 :=
  selectValidPortion_spec ⟨4, 2, fun b s => b * 10 + s⟩ 2 3 99 (by decide)

/-- `ConvolutionVisitor::DimLookUp`: index into a permutation vector. -/
def dimLookUp (permuteDims : List Nat) (id : Nat) : Nat := permuteDims.getD id 0

/-- Shape-level embedding of `ConvolutionVisitor::BatchToSpace`
(space_to_batch_converter.cc, lines 1265-1313): reshape the rewritten
instruction's shape to the old batch size (multiplying the space extent by
`batch_size / old_batch_size`), slice the space axis back to the original
extent, and transpose by the recorded permutation (the output shape of
`MakeTransposeHlo(x, dims)` has `dims.length` axes, axis `i` of extent
`x.shape[dims[i]]`). -/
def batchToSpaceShape (oldShape newShape permuteDims : List Nat)
    (oldBatchDim oldSpaceDim : Nat) : List Nat :=
  let batchDim := dimLookUp permuteDims oldBatchDim
  let spaceDim := dimLookUp permuteDims oldSpaceDim
  let batchSize := newShape.getD batchDim 0
  let oldBatchSize := oldShape.getD oldBatchDim 0
  let newDimensions :=
    (newShape.set spaceDim
        (newShape.getD spaceDim 0 * (batchSize / oldBatchSize))).set
      batchDim oldBatchSize
  let sliced := newDimensions.set spaceDim (oldShape.getD oldSpaceDim 0)
  (List.range permuteDims.length).map fun i =>
    sliced.getD (dimLookUp permuteDims i) 0

/-- `getD` after `set` at the same in-range index. -/
theorem getD_set_self (l : List Nat) (i a : Nat) (h : i < l.length) :
    (l.set i a).getD i 0 = a := by
  rw [List.getD_eq_getElem _ _ (by simpa using h), List.getElem_set_self]

/-- `getD` after `set` at a different index. -/
theorem getD_set_ne {l : List Nat} {i j : Nat} (a : Nat) (hne : i ≠ j) :
    (l.set i a).getD j 0 = l.getD j 0 := by
  by_cases h : j < l.length
  · rw [List.getD_eq_getElem _ _ (by simpa using h),
        List.getD_eq_getElem _ _ h, List.getElem_set_ne hne]
  · rw [List.getD_eq_default _ _ (by simp only [List.length_set]; omega),
        List.getD_eq_default _ _ (by omega)]

/-- The set-chain of `batchToSpaceShape`, read at the space axis. -/
theorem getD_chain_space (newShape : List Nat) (sp bd q ob os : Nat)
    (hsp : sp < newShape.length) :
    (((newShape.set sp q).set bd ob).set sp os).getD sp 0 = os :=
  getD_set_self _ _ _ (by simpa using hsp)

/-- The set-chain of `batchToSpaceShape`, read at the batch axis. -/
theorem getD_chain_batch (newShape : List Nat) (sp bd q ob os : Nat)
    (hbd : bd < newShape.length) (hne : sp ≠ bd) :
    (((newShape.set sp q).set bd ob).set sp os).getD bd 0 = ob := by
  rw [getD_set_ne _ hne, getD_set_self _ _ _ (by simpa using hbd)]

/-- The set-chain of `batchToSpaceShape`, read at any other axis. -/
theorem getD_chain_other (newShape : List Nat) (sp bd q ob os j : Nat)
    (h1 : sp ≠ j) (h2 : bd ≠ j) :
    (((newShape.set sp q).set bd ob).set sp os).getD j 0 =
      newShape.getD j 0 := by
  rw [getD_set_ne _ h1, getD_set_ne _ h2, getD_set_ne _ h1]

/-- BatchToSpace clause of the root-replacement property: for every
instruction with `OldToNew` and `PermuteMap` entries, `BatchToSpace`
returns an instruction whose shape equals the original instruction's
shape.  The hypotheses state what the recorded entries mean per the data
model: `permuteDims` is the permutation from old axis order to new axis
order of an `n`-dimensional shape, and the rewritten shape agrees with the
old shape on every axis other than the tracked batch and space axes. -/
theorem batchToSpace_shape_eq (n : Nat)
    (oldShape newShape permuteDims : List Nat) (oldBatchDim oldSpaceDim : Nat)
    (hold : oldShape.length = n) (hnew : newShape.length = n)
    (hperm : permuteDims.length = n)
    (hlt : ∀ i, i < n → dimLookUp permuteDims i < n)
    (hinj : ∀ i j, i < n → j < n →
        dimLookUp permuteDims i = dimLookUp permuteDims j → i = j)
    (hbd : oldBatchDim < n) (hsd : oldSpaceDim < n)
    (hne : oldBatchDim ≠ oldSpaceDim)
    (hothers : ∀ i, i < n → i ≠ oldBatchDim → i ≠ oldSpaceDim →
        newShape.getD (dimLookUp permuteDims i) 0 = oldShape.getD i 0) :
    batchToSpaceShape oldShape newShape permuteDims oldBatchDim oldSpaceDim =
      oldShape := by
  apply List.ext_getElem
  · simp [batchToSpaceShape, hperm, hold]
  intro i h1 h2
  have hin : i < n := by
    have := h2; omega
  simp only [batchToSpaceShape, List.getElem_map, List.getElem_range]
  rw [← List.getD_eq_getElem oldShape 0 h2]
  by_cases hi1 : i = oldSpaceDim
  · rw [hi1]
    exact getD_chain_space newShape _ _ _ _ _ (by rw [hnew]; exact hlt _ hsd)
  · by_cases hi2 : i = oldBatchDim
    · rw [hi2]
      exact getD_chain_batch newShape _ _ _ _ _
        (by rw [hnew]; exact hlt _ hbd)
        (fun h => hne (hinj _ _ hsd hbd h).symm)
    · rw [getD_chain_other newShape _ _ _ _ _ _
        (fun h => hi1 (hinj _ _ hsd hin h).symm)
        (fun h => hi2 (hinj _ _ hbd hin h).symm)]
      exact hothers i hin hi2 hi1

/-- Instantiation of `batchToSpace_shape_eq` at a concrete rank-3 shape:
old shape `[2, 16, 4]` (batch axis 0, space axis 1), rewritten shape
`[8, 6, 4]`, identity permutation. -/
theorem batchToSpace_shape_eq_witness :
    batchToSpaceShape [2, 16, 4] [8, 6, 4] [0, 1, 2] 0 1 = [2, 16, 4] :=
  batchToSpace_shape_eq 3 [2, 16, 4] [8, 6, 4] [0, 1, 2] 0 1 rfl rfl rfl
    (by intro i hi; interval_cases i <;> decide)
    (by intro i j hi hj h; interval_cases i <;> interval_cases j <;>
      simp_all [dimLookUp])
    (by decide) (by decide) (by decide)
    (by intro i hi h1 h2; interval_cases i <;> simp_all [dimLookUp])

/-- Modelled from the spec: `HloComputation::ReplaceInstruction` — the
host's "replace an entire instruction (rewiring all users)" mutation
primitive of spec section 6, whose implementation (hlo_computation.cc) is
not among the embedded sources.  The spec lists the operand-level
primitive as "replace one operand (possibly changing shape)" and the
instruction-level one without that allowance, and by spec section 7 a
graph mutation that cannot succeed is fatal with no partial rollback: so
replacing an entire instruction requires the replacement's shape to equal
the replaced instruction's shape, and the fatal abort is modelled as
`none`. -/
def replaceInstruction (oldShape newShape : List Nat) : Option (List Nat) :=
  if newShape = oldShape then some newShape else none

/-- The result of the reduce branch of `ConvolutionVisitor::Propagate`:
the rewritten reduce's shape, its remapped reduced dimensions, and the
needs-further-propagation verdict. -/
structure ReduceRewrite where
  shape : List Nat
  dimensions : List Nat
  needsFurther : Bool

/-- Shape-level embedding of the reduce branch of
`ConvolutionVisitor::Propagate` (space_to_batch_converter.cc, lines
922-954): `new_consumer` is `consumer->Clone()` (line 923, the host's
clone-instruction primitive, which copies the shape); its reduced
dimensions are remapped through the operand's recorded permutation (lines
939-943); operand 0 is replaced via `ReplaceOperandWithDifferentShape`
(lines 945-946), the operand-level primitive that changes no shape of the
instruction itself; and the branch reports that no further propagation is
needed (line 954).  No `PermuteMap` entry is recorded on this path. -/
def propagateOnReduce (consumerShape reduceDims permuteDims : List Nat) :
    ReduceRewrite :=
  { shape := consumerShape
    dimensions := reduceDims.map (dimLookUp permuteDims)
    needsFurther := false }

/-- The root-handling step of `PropagateOnUsers`
(space_to_batch_converter.cc, lines 1351-1369): when the popped node is
the computation's root, it is replaced directly by its rewritten value
when the rewrite reported that no further propagation is needed (lines
1353-1358 and 1366-1369), and by its `BatchToSpace` inverse otherwise
(lines 1361-1364) — either way through the host's shape-checked
replace-instruction primitive. -/
def replaceRootStep (rootShape rewrittenShape b2sShape : List Nat)
    (needsFurtherPropagation : Bool) : Option (List Nat) :=
  if needsFurtherPropagation = false then
    replaceInstruction rootShape rewrittenShape
  else
    replaceInstruction rootShape b2sShape

/-- C4: whenever the pass replaces the computation's root instruction —
directly by the rewritten value when no further propagation is needed, or
by the `BatchToSpace` inverse otherwise — the replacement's shape equals
the original root's shape.  First conjunct: every root replacement that
succeeds (on either branch, so including the backprop-filter direct path)
yields the original root's shape, the host primitive being fatal
otherwise.  Second conjunct: the reduce direct path succeeds outright —
its rewritten value is a clone whose shape is unchanged and it reports no
further propagation.  Third conjunct: for every instruction with
`OldToNew` and `PermuteMap` entries (the recorded permutation relating old
and new axis order, other axes unchanged), `BatchToSpace` returns an
instruction whose shape equals the original instruction's shape (reshape
to old batch, slice the space axis back to the original extent, transpose
by the recorded permutation), so the inverse branch succeeds as well. -/
theorem rootReplacement_shape_eq :
    (∀ rootShape rewrittenShape b2sShape needs result,
        replaceRootStep rootShape rewrittenShape b2sShape needs =
          some result → result = rootShape) ∧
    (∀ consumerShape reduceDims permuteDims b2sShape,
        (propagateOnReduce consumerShape reduceDims
            permuteDims).needsFurther = false ∧
        replaceRootStep consumerShape
            (propagateOnReduce consumerShape reduceDims permuteDims).shape
            b2sShape
            (propagateOnReduce consumerShape reduceDims
              permuteDims).needsFurther = some consumerShape) ∧
    (∀ n oldShape newShape permuteDims oldBatchDim oldSpaceDim,
        oldShape.length = n → newShape.length = n → permuteDims.length = n →
        (∀ i, i < n → dimLookUp permuteDims i < n) →
        (∀ i j, i < n → j < n →
            dimLookUp permuteDims i = dimLookUp permuteDims j → i = j) →
        oldBatchDim < n → oldSpaceDim < n → oldBatchDim ≠ oldSpaceDim →
        (∀ i, i < n → i ≠ oldBatchDim → i ≠ oldSpaceDim →
            newShape.getD (dimLookUp permuteDims i) 0 =
              oldShape.getD i 0) →
        batchToSpaceShape oldShape newShape permuteDims oldBatchDim
            oldSpaceDim = oldShape ∧
        (∀ rewrittenShape,
          replaceRootStep oldShape rewrittenShape
              (batchToSpaceShape oldShape newShape permuteDims oldBatchDim
                oldSpaceDim) true = some oldShape)) := by
  refine ⟨?_, ?_, ?_⟩
  · intro rootShape rewrittenShape b2sShape needs result h
    unfold replaceRootStep replaceInstruction at h
    split_ifs at h <;> simp_all
  · intro consumerShape reduceDims permuteDims b2sShape
    exact ⟨rfl, by simp [replaceRootStep, replaceInstruction,
      propagateOnReduce]⟩
  · intro n oldShape newShape permuteDims oldBatchDim oldSpaceDim
      hold hnew hperm hlt hinj hbd hsd hne hothers
    have hb2s := batchToSpace_shape_eq n oldShape newShape permuteDims
      oldBatchDim oldSpaceDim hold hnew hperm hlt hinj hbd hsd hne hothers
    refine ⟨hb2s, ?_⟩
    intro rewrittenShape
    simp [replaceRootStep, replaceInstruction, hb2s]

/-- Instantiation of `rootReplacement_shape_eq`: the reduce direct path at
a concrete rank-2 reduce, and the `BatchToSpace` branch at the concrete
rank-3 shapes (old `[2, 16, 4]`, batch axis 0, space axis 1, rewritten
`[8, 6, 4]`, identity permutation). -/
theorem rootReplacement_shape_eq_witness :
    ((propagateOnReduce [2, 4] [0, 1] [0, 1]).needsFurther = false ∧
      replaceRootStep [2, 4] (propagateOnReduce [2, 4] [0, 1] [0, 1]).shape
        [9] (propagateOnReduce [2, 4] [0, 1] [0, 1]).needsFurther =
      some [2, 4]) ∧
    batchToSpaceShape [2, 16, 4] [8, 6, 4] [0, 1, 2] 0 1 = [2, 16, 4] ∧
    replaceRootStep [2, 16, 4] [8, 6, 4]
        (batchToSpaceShape [2, 16, 4] [8, 6, 4] [0, 1, 2] 0 1) true =
      some [2, 16, 4] := by
  obtain ⟨h3, h4⟩ := rootReplacement_shape_eq.2.2 3 [2, 16, 4] [8, 6, 4]
    [0, 1, 2] 0 1 rfl rfl rfl
    (by intro i hi; interval_cases i <;> decide)
    (by intro i j hi hj h; interval_cases i <;> interval_cases j <;>
      simp_all [dimLookUp])
    (by decide) (by decide) (by decide)
    (by intro i hi h1 h2; interval_cases i <;> simp_all [dimLookUp])
  exact ⟨rootReplacement_shape_eq.2.1 [2, 4] [0, 1] [0, 1] [9], h3,
    h4 [8, 6, 4]⟩

/-- The information about a rewritten (space-to-batch'ed) operand that the
readiness checks consult: the rewritten instruction's shape and its
recorded permutation (`instr_to_dim_permute_map_`). -/
structure RewrittenOperand where
  shape : List Nat
  permuteDims : List Nat
  deriving Repr, DecidableEq

/-- Window dimension at axis `d` of a windowed op (out-of-range reads a
default-constructed `xla::WindowDimension`, which never happens on the
paths verified here). -/
def windowDim (w : List WindowDimension) (d : Nat) : WindowDimension :=
  w.getD d ⟨0, 0, 0, 0, 0, 0⟩

/-- The data `SupportedOpForPropagation` and `CanPropagate` read from a
reduce-window or select-and-scatter consumer and from the pass's side
tables: the consumer's per-axis window, `instr_to_dim_map_[operand 0]`,
the rewritten operands 0 and 1 (`old_to_new_instrs_` joined with
`instr_to_dim_permute_map_`), and whether the scatter body matches
`AddAnyOrder(Parameter(0), Parameter(1))` (the pattern matcher is host
infrastructure, so its verdict is carried as a field). -/
structure WindowedConsumer where
  window : List WindowDimension
  dimMapOp0 : Option (Nat × Nat)
  rewrittenOp0 : Option RewrittenOperand
  rewrittenOp1 : Option RewrittenOperand
  scatterIsAddOfParams : Bool
  deriving Repr, DecidableEq

/-- The `kReduceWindow`/`kSelectAndScatter` branch of
`ConvolutionVisitor::SupportedOpForPropagation`
(space_to_batch_converter.cc, lines 733-780).  The `%` on `int64` agrees
with `Int.emod` in the only way it is used here (comparison with zero). -/
def SupportedOpForPropagationWindowed (consumer : WindowedConsumer) : Bool :=
  match consumer.dimMapOp0 with
  | none => false
  | some result =>
    let oldBatchDim := result.1
    let oldSpaceDim := result.2
    if (windowDim consumer.window oldBatchDim).size ≠ 1 then false
    else if (windowDim consumer.window oldSpaceDim).paddingLow ≠ 0 then false
    else if (windowDim consumer.window oldSpaceDim).paddingHigh >
        (windowDim consumer.window oldSpaceDim).size then false
    else
      match consumer.rewrittenOp0 with
      | none => false
      | some newOperand =>
        let newSpaceDim := dimLookUp newOperand.permuteDims oldSpaceDim
        if (windowDim consumer.window oldSpaceDim).size ≠ 1 then
          if Int.emod (newOperand.shape.getD newSpaceDim 0 : Int)
              (windowDim consumer.window oldSpaceDim).stride ≠ 0 then false
          else true
        else true

/-- The `kReduceWindow` (and `kReduce`) branch of
`ConvolutionVisitor::CanPropagate` (space_to_batch_converter.cc, lines
618-626): operand 0 must already be rewritten. -/
def CanPropagateReduceWindow (consumer : WindowedConsumer) : Bool :=
  consumer.rewrittenOp0.isSome

/-- The `kSelectAndScatter` branch of `ConvolutionVisitor::CanPropagate`
(space_to_batch_converter.cc, lines 628-683).  `instr_to_dim_map_` is read
through `operator[]`, which default-constructs a `(0, 0)` pair when the
entry is missing, hence the `getD`.  The `int64` division truncates toward
zero, hence `Int.tdiv`. -/
def CanPropagateSelectAndScatter (consumer : WindowedConsumer) : Bool :=
  if ¬ consumer.scatterIsAddOfParams then false
  else
    match consumer.rewrittenOp0, consumer.rewrittenOp1 with
    | some firstOperand, some secondOperand =>
      let dimMapValOp0 := consumer.dimMapOp0.getD (0, 0)
      let permuteDimsFirstOperand := firstOperand.permuteDims
      let permuteDimsSecondOperand := secondOperand.permuteDims
      if permuteDimsFirstOperand ≠ permuteDimsSecondOperand then false
      else
        let oldBatchDim := dimMapValOp0.1
        let oldSpaceDim := dimMapValOp0.2
        let newBatchDim := dimLookUp permuteDimsFirstOperand oldBatchDim
        let newSpaceDim := dimLookUp permuteDimsFirstOperand oldSpaceDim
        if firstOperand.shape.getD newBatchDim 0 ≠
            secondOperand.shape.getD newBatchDim 0 then false
        else
          let stride := (windowDim consumer.window oldSpaceDim).stride
          let padHigh := (windowDim consumer.window oldSpaceDim).paddingHigh
          let padLow := (windowDim consumer.window oldSpaceDim).paddingLow
          if Int.tdiv ((firstOperand.shape.getD newSpaceDim 0 : Int) +
                padHigh + padLow) stride ≠
              (secondOperand.shape.getD newSpaceDim 0 : Int) then false
          else true
    | _, _ => false

/-- Combined readiness of a reduce-window consumer: it is enqueued exactly
when `SupportedOpForPropagation` and `CanPropagate` both accept
(space_to_batch_converter.cc, lines 1374-1394). -/
def reduceWindowReady (consumer : WindowedConsumer) : Bool :=
  SupportedOpForPropagationWindowed consumer &&
    CanPropagateReduceWindow consumer

/-- Combined readiness of a select-and-scatter consumer. -/
def selectAndScatterReady (consumer : WindowedConsumer) : Bool :=
  SupportedOpForPropagationWindowed consumer &&
    CanPropagateSelectAndScatter consumer

/-- C7 (amended): the readiness checks accept a reduce-window consumer iff
operand 0 is rewritten with a `DimMap` entry, the window has size 1 on the
tracked batch axis, zero low padding and high padding at most the window
size on the tracked space axis, and — unless the window's space size is 1,
in which case the check is skipped — the space-axis stride evenly divides
the rewritten operand's space extent; a select-and-scatter consumer must
additionally have an add-of-parameters scatter body, operand 1 rewritten
with the same permutation, equal batch extents, and
`(space extent + pads) / stride` equal to operand 1's space extent. -/
theorem windowedReadiness_iff (consumer : WindowedConsumer) :
    (reduceWindowReady consumer = true ↔
      (∃ bd sd op0, consumer.dimMapOp0 = some (bd, sd) ∧
        consumer.rewrittenOp0 = some op0 ∧
        (windowDim consumer.window bd).size = 1 ∧
        (windowDim consumer.window sd).paddingLow = 0 ∧
        (windowDim consumer.window sd).paddingHigh ≤
          (windowDim consumer.window sd).size ∧
        ((windowDim consumer.window sd).size ≠ 1 →
          (windowDim consumer.window sd).stride ∣
            (op0.shape.getD (dimLookUp op0.permuteDims sd) 0 : Int)))) ∧
    (selectAndScatterReady consumer = true ↔
      (∃ bd sd op0 op1, consumer.dimMapOp0 = some (bd, sd) ∧
        consumer.rewrittenOp0 = some op0 ∧
        consumer.rewrittenOp1 = some op1 ∧
        (windowDim consumer.window bd).size = 1 ∧
        (windowDim consumer.window sd).paddingLow = 0 ∧
        (windowDim consumer.window sd).paddingHigh ≤
          (windowDim consumer.window sd).size ∧
        ((windowDim consumer.window sd).size ≠ 1 →
          (windowDim consumer.window sd).stride ∣
            (op0.shape.getD (dimLookUp op0.permuteDims sd) 0 : Int)) ∧
        consumer.scatterIsAddOfParams = true ∧
        op0.permuteDims = op1.permuteDims ∧
        op0.shape.getD (dimLookUp op0.permuteDims bd) 0 =
          op1.shape.getD (dimLookUp op0.permuteDims bd) 0 ∧
        Int.tdiv ((op0.shape.getD (dimLookUp op0.permuteDims sd) 0 : Int) +
            (windowDim consumer.window sd).paddingHigh +
            (windowDim consumer.window sd).paddingLow)
          (windowDim consumer.window sd).stride =
          (op1.shape.getD (dimLookUp op0.permuteDims sd) 0 : Int))) := by
  obtain ⟨w, dm, r0, r1, sc⟩ := consumer
  have hdvd : ∀ x y : Int, (y ∣ x) ↔ Int.emod x y = 0 := fun x y =>
    ⟨Int.emod_eq_zero_of_dvd, Int.dvd_of_emod_eq_zero⟩
  constructor
  · rcases dm with _ | ⟨bd, sd⟩
    · simp [reduceWindowReady, SupportedOpForPropagationWindowed]
    rcases r0 with _ | op0
    · simp [reduceWindowReady, SupportedOpForPropagationWindowed,
        CanPropagateReduceWindow]
    simp only [reduceWindowReady, SupportedOpForPropagationWindowed,
      CanPropagateReduceWindow, Bool.and_eq_true, Option.isSome_some,
      Option.some.injEq, Prod.mk.injEq]
    constructor
    · rintro ⟨h1, -⟩
      refine ⟨bd, sd, op0, ⟨rfl, rfl⟩, rfl, ?_⟩
      split_ifs at h1 <;>
        first
          | simp_all [hdvd]
          | (exfalso; simp_all)
    · rintro ⟨bd', sd', op0', ⟨hbd, hsd⟩, hop, hrest⟩
      subst hbd; subst hsd; cases hop
      obtain ⟨hsize, hpl, hph, hdv⟩ := hrest
      refine ⟨?_, trivial⟩
      split_ifs <;>
        first
          | rfl
          | omega
          | simp_all [hdvd]
          | (simp_all [hdvd]; omega)
  · rcases dm with _ | ⟨bd, sd⟩
    · simp [selectAndScatterReady, SupportedOpForPropagationWindowed]
    rcases r0 with _ | op0
    · simp [selectAndScatterReady, SupportedOpForPropagationWindowed]
    rcases r1 with _ | op1
    · simp only [selectAndScatterReady, SupportedOpForPropagationWindowed,
        CanPropagateSelectAndScatter, Bool.and_eq_true]
      constructor
      · rintro ⟨-, h2⟩
        split_ifs at h2 <;> simp_all
      · rintro ⟨bd', sd', op0', op1', -, -, hop1, -⟩
        cases hop1
    simp only [selectAndScatterReady, SupportedOpForPropagationWindowed,
      CanPropagateSelectAndScatter, Bool.and_eq_true, Option.some.injEq,
      Prod.mk.injEq, Option.getD_some]
    constructor
    · rintro ⟨h1, h2⟩
      refine ⟨bd, sd, op0, op1, ⟨rfl, rfl⟩, rfl, rfl, ?_⟩
      split_ifs at h1 h2 <;>
        first
          | simp_all [hdvd]
          | (simp_all [hdvd]; omega)
    · rintro ⟨bd', sd', op0', op1', ⟨hbd, hsd⟩, hop0, hop1, hrest⟩
      subst hbd; subst hsd; cases hop0; cases hop1
      obtain ⟨hsize, hpl, hph, hdv, hsc, hperm, hbatch, hdiv⟩ := hrest
      constructor
      · split_ifs <;>
          first
            | rfl
            | omega
            | simp_all [hdvd]
            | (simp_all [hdvd]; omega)
      · split_ifs <;>
          first
            | rfl
            | omega
            | simp_all [hdvd]
            | (simp_all [hdvd]; omega)

/-- C7 counterexample: a reduce-window consumer whose window has space-axis
size 1 and stride 3 over a rewritten operand of space extent 4 is accepted
by the readiness checks (the stride-divisibility check is skipped when the
space window size is 1), although the stride does not evenly divide the
space extent — refuting the claimed unconditional divisibility condition. -/
theorem windowedReadiness_counterexample :
    reduceWindowReady
        ⟨[⟨1, 1, 0, 0, 1, 1⟩, ⟨1, 3, 0, 0, 1, 1⟩],
         some (0, 1), some ⟨[8, 4], [0, 1]⟩, none, false⟩ = true ∧
    ¬ ((3 : Int) ∣ 4) := by
  constructor
  · rfl
  · decide

/-- The mutable pass state touched by the user loop of
`PropagateOnUsers` (space_to_batch_converter.cc, lines 1374-1394):
per-instruction operand lists, the `old_to_new_instrs_` and
`instr_to_dim_map_` tables, the propagation worklist, and the
non-propagatable set.  Instructions are identified by handles (`Nat`). -/
structure PropState where
  operands : Nat → List Nat
  oldToNew : Nat → Option Nat
  dimMap : Nat → Option (Nat × Nat)
  worklist : List (Nat × Nat)
  nonProp : List Nat

/-- One iteration of the user loop of `PropagateOnUsers` for a popped
`node`: a user failing `SupportedOpForPropagation` has every operand slot
referencing `node` rewired to `node`'s batch-to-space value (`b2s node`); a
supported, ready user is removed from the non-propagatable set and pushed
onto the worklist; a supported, unready user is recorded as
non-propagatable.  The opcode-specific checks and `BatchToSpace` are host
calls from the loop's point of view, abstracted as oracles. -/
def handleUser (supported canProp : Nat → Nat → Bool) (b2s : Nat → Nat)
    (node : Nat) (s : PropState) (user : Nat) : PropState :=
  if ¬ supported user node then
    { s with operands := fun w =>
        if w = user then
          (s.operands user).map fun op => if op = node then b2s node else op
        else s.operands w }
  else if canProp user node then
    { s with worklist := s.worklist ++ [(user, node)],
             nonProp := s.nonProp.erase user }
  else
    { s with nonProp := user :: s.nonProp }

/-- The user loop of `PropagateOnUsers`: fold `handleUser` over
`node->users()`. -/
def processUsers (supported canProp : Nat → Nat → Bool) (b2s : Nat → Nat)
    (node : Nat) (users : List Nat) (s : PropState) : PropState :=
  users.foldl (handleUser supported canProp b2s node) s

/-- `handleUser` never touches the `OldToNew` table. -/
theorem handleUser_oldToNew (supported canProp : Nat → Nat → Bool)
    (b2s : Nat → Nat) (node : Nat) (s : PropState) (u : Nat) :
    (handleUser supported canProp b2s node s u).oldToNew = s.oldToNew := by
  unfold handleUser; split_ifs <;> rfl

/-- `handleUser` never touches the `DimMap` table. -/
theorem handleUser_dimMap (supported canProp : Nat → Nat → Bool)
    (b2s : Nat → Nat) (node : Nat) (s : PropState) (u : Nat) :
    (handleUser supported canProp b2s node s u).dimMap = s.dimMap := by
  unfold handleUser; split_ifs <;> rfl

/-- `handleUser` leaves the operand list of every other instruction
unchanged. -/
theorem handleUser_operands_ne (supported canProp : Nat → Nat → Bool)
    (b2s : Nat → Nat) (node : Nat) (s : PropState) (u w : Nat) (hne : w ≠ u) :
    (handleUser supported canProp b2s node s u).operands w = s.operands w := by
  unfold handleUser; split_ifs <;> simp [hne]

/-- Every worklist entry after `handleUser` was already present or is the
processed user's pair, pushed only when the user passed the support
check. -/
theorem handleUser_worklist_sub (supported canProp : Nat → Nat → Bool)
    (b2s : Nat → Nat) (node : Nat) (s : PropState) (u : Nat)
    (p : Nat × Nat) (hp : p ∈ (handleUser supported canProp b2s node s u).worklist) :
    p ∈ s.worklist ∨ (p = (u, node) ∧ supported u node = true) := by
  unfold handleUser at hp
  split_ifs at hp <;> simp_all

/-- `processUsers` never touches the `OldToNew` table. -/
theorem processUsers_oldToNew (supported canProp : Nat → Nat → Bool)
    (b2s : Nat → Nat) (node : Nat) (users : List Nat) (s : PropState) :
    (processUsers supported canProp b2s node users s).oldToNew = s.oldToNew := by
  induction users generalizing s with
  | nil => rfl
  | cons u rest ih =>
    rw [processUsers, List.foldl_cons, ← processUsers, ih,
      handleUser_oldToNew]

/-- `processUsers` never touches the `DimMap` table. -/
theorem processUsers_dimMap (supported canProp : Nat → Nat → Bool)
    (b2s : Nat → Nat) (node : Nat) (users : List Nat) (s : PropState) :
    (processUsers supported canProp b2s node users s).dimMap = s.dimMap := by
  induction users generalizing s with
  | nil => rfl
  | cons u rest ih =>
    rw [processUsers, List.foldl_cons, ← processUsers, ih, handleUser_dimMap]

/-- `processUsers` leaves the operand lists of non-users unchanged. -/
theorem processUsers_operands_not_mem (supported canProp : Nat → Nat → Bool)
    (b2s : Nat → Nat) (node : Nat) (users : List Nat) (s : PropState)
    (w : Nat) (hw : w ∉ users) :
    (processUsers supported canProp b2s node users s).operands w =
      s.operands w := by
  induction users generalizing s with
  | nil => rfl
  | cons u rest ih =>
    rw [processUsers, List.foldl_cons, ← processUsers,
      ih _ (fun h => hw (List.mem_cons_of_mem _ h)),
      handleUser_operands_ne _ _ _ _ _ _ _
        (fun h => hw (by rw [h]; exact List.mem_cons_self u rest))]

/-- Every worklist entry after `processUsers` was already present or names
one of the processed users that passed the support check. -/
theorem processUsers_worklist_mem (supported canProp : Nat → Nat → Bool)
    (b2s : Nat → Nat) (node : Nat) (users : List Nat) (s : PropState)
    (p : Nat × Nat)
    (hp : p ∈ (processUsers supported canProp b2s node users s).worklist) :
    p ∈ s.worklist ∨ (p.1 ∈ users ∧ supported p.1 node = true) := by
  induction users generalizing s with
  | nil => exact Or.inl hp
  | cons u rest ih =>
    rw [processUsers, List.foldl_cons, ← processUsers] at hp
    rcases ih _ hp with h | h
    · rcases handleUser_worklist_sub _ _ _ _ _ _ _ h with h2 | ⟨h2, h3⟩
      · exact Or.inl h2
      · exact Or.inr (by simp [h2, h3])
    · exact Or.inr ⟨List.mem_cons_of_mem _ h.1, h.2⟩

/-- C8: when a user of a popped worklist node fails
`SupportedOpForPropagation`, the loop replaces exactly the operand slots of
that user which referenced the node by the node's batch-to-space value,
does not enqueue that user, creates no `OldToNew` or `DimMap` entry for
it, and leaves the operand lists of every non-user instruction
unchanged. -/
theorem propagateOnUsers_unsupported_frame
    (supported canProp : Nat → Nat → Bool) (b2s : Nat → Nat)
    (node : Nat) (users : List Nat) (s : PropState) (user : Nat)
    (hmem : user ∈ users) (hnodup : users.Nodup)
    (hunsup : supported user node = false) :
    (processUsers supported canProp b2s node users s).operands user =
        ((s.operands user).map fun op => if op = node then b2s node else op) ∧
    (∀ w, w ∉ users →
      (processUsers supported canProp b2s node users s).operands w =
        s.operands w) ∧
    (processUsers supported canProp b2s node users s).oldToNew = s.oldToNew ∧
    (processUsers supported canProp b2s node users s).dimMap = s.dimMap ∧
    (∀ p ∈ (processUsers supported canProp b2s node users s).worklist,
      p.1 = user → p ∈ s.worklist) := by
  refine ⟨?_, ?_, processUsers_oldToNew _ _ _ _ _ _,
    processUsers_dimMap _ _ _ _ _ _, ?_⟩
  · induction users generalizing s with
    | nil => cases hmem
    | cons u rest ih =>
      rw [processUsers, List.foldl_cons, ← processUsers]
      by_cases hu : u = user
      · subst hu
        have hnotin : u ∉ rest := (List.nodup_cons.mp hnodup).1
        rw [processUsers_operands_not_mem _ _ _ _ _ _ _ hnotin]
        rw [handleUser, if_pos (by simp [hunsup])]
        simp
      · have hmem2 : user ∈ rest := by
          rcases List.mem_cons.mp hmem with h | h
          · exact absurd h.symm hu
          · exact h
        rw [ih _ hmem2 (List.nodup_cons.mp hnodup).2,
          handleUser_operands_ne _ _ _ _ _ _ _ (fun h => hu h.symm)]
  · intro w hw
    exact processUsers_operands_not_mem _ _ _ _ _ _ _ hw
  · intro p hp hp1
    rcases processUsers_worklist_mem _ _ _ _ _ _ _ hp with h | h
    · exact h
    · exact absurd (hp1 ▸ h.2) (by simp [hunsup])

/-- A small concrete pass state for exercising the user loop. -/
def frameExampleState : PropState :=
  ⟨fun _ => [0, 3], fun _ => none, fun _ => none, [], []⟩

/-- Instantiation of `propagateOnUsers_unsupported_frame`: node 0 with
users `[1, 2]`, user 1 failing the support check. -/
theorem propagateOnUsers_unsupported_frame_witness :
    (processUsers (fun u _ => decide (u = 2)) (fun _ _ => true) (fun _ => 100)
        0 [1, 2] frameExampleState).operands 1 =
      ((frameExampleState.operands 1).map
        (fun op => if op = 0 then 100 else op)) ∧
    (∀ w, w ∉ [1, 2] →
      (processUsers (fun u _ => decide (u = 2)) (fun _ _ => true)
          (fun _ => 100) 0 [1, 2] frameExampleState).operands w =
        frameExampleState.operands w) ∧
    (processUsers (fun u _ => decide (u = 2)) (fun _ _ => true) (fun _ => 100)
        0 [1, 2] frameExampleState).oldToNew = frameExampleState.oldToNew ∧
    (processUsers (fun u _ => decide (u = 2)) (fun _ _ => true) (fun _ => 100)
        0 [1, 2] frameExampleState).dimMap = frameExampleState.dimMap ∧
    (∀ p ∈ (processUsers (fun u _ => decide (u = 2)) (fun _ _ => true)
        (fun _ => 100) 0 [1, 2] frameExampleState).worklist,
      p.1 = 1 → p ∈ frameExampleState.worklist) :=
  propagateOnUsers_unsupported_frame (fun u _ => decide (u = 2))
    (fun _ _ => true) (fun _ => 100) 0 [1, 2] frameExampleState 1
    (by decide) (by decide) (by decide)

/-- The loop state of the worklist traversal of `PropagateOnUsers`
(space_to_batch_converter.cc, lines 1332-1396), reduced to what controls
the loop: the worklist, the key set of `old_to_new_instrs_`, and whether
this is still the first iteration (`iteration_count == 0`). -/
structure WorkState where
  worklist : List (Nat × Nat)
  oldToNew : Finset Nat
  iterZero : Bool
  deriving DecidableEq

/-- One iteration of the worklist loop of `PropagateOnUsers`; `none` when
the worklist is empty (loop exit).  A popped node already in `OldToNew` is
skipped (except on iteration 0, which processes the already-recorded
original convolution without calling `Propagate`).  `Propagate`'s effect on
the loop control is abstracted to what every branch of the source
guarantees: the node is recorded in `old_to_new_instrs_` and a
needs-further-propagation flag is reported (`needsFurther`).  Users are
pushed exactly when they pass `SupportedOpForPropagation` and
`CanPropagate`; the root and the no-further-propagation cases push
nothing. -/
def stepLoop (users : Nat → List Nat) (supported canProp : Nat → Nat → Bool)
    (needsFurther : Nat → Bool) (isRoot : Nat → Bool) :
    WorkState → Option WorkState
  | ⟨[], _, _⟩ => none
  | ⟨(node, _parent) :: rest, oldToNew, iterZero⟩ =>
    if node ∈ oldToNew ∧ iterZero = false then
      some ⟨rest, oldToNew, iterZero⟩
    else
      let oldToNew2 := if iterZero then oldToNew else insert node oldToNew
      let needs := if iterZero then true else needsFurther node
      if isRoot node then some ⟨rest, oldToNew2, false⟩
      else if needs = false then some ⟨rest, oldToNew2, false⟩
      else
        some ⟨rest ++ ((users node).filter
              (fun u => supported u node && canProp u node)).map
            (fun u => (u, node)),
          oldToNew2, false⟩

/-- Iterate `stepLoop`; `none` once the loop has exited. -/
def iterateStep (users : Nat → List Nat) (supported canProp : Nat → Nat → Bool)
    (needsFurther : Nat → Bool) (isRoot : Nat → Bool) :
    Nat → WorkState → Option WorkState
  | 0, s => some s
  | k + 1, s =>
    match stepLoop users supported canProp needsFurther isRoot s with
    | none => none
    | some s2 => iterateStep users supported canProp needsFurther isRoot k s2

/-- The termination measure of the worklist loop: the worklist length, plus
a weight of `|users n| + 1` for every graph node `n` not yet rewritten
(covering the pairs its processing may push, plus the pop itself), plus a
weight covering the pushes of the pending first iteration. -/
def loopMeasure (users : Nat → List Nat) (allNodes : Finset Nat)
    (s : WorkState) : Nat :=
  s.worklist.length +
    (allNodes \ s.oldToNew).sum (fun n => (users n).length + 1) +
    (if s.iterZero then (allNodes.sup fun n => (users n).length) + 1 else 0)

/-- A nonempty worklist always yields another iteration. -/
theorem stepLoop_some (users : Nat → List Nat)
    (supported canProp : Nat → Nat → Bool) (needsFurther : Nat → Bool)
    (isRoot : Nat → Bool) (s : WorkState) (h : s.worklist ≠ []) :
    ∃ s2, stepLoop users supported canProp needsFurther isRoot s = some s2 := by
  obtain ⟨wl, otn, iz⟩ := s
  cases wl with
  | nil => simp at h
  | cons hd rest =>
    obtain ⟨node, parent⟩ := hd
    simp only [stepLoop]
    split_ifs <;> exact ⟨_, rfl⟩

/-- One loop iteration keeps every worklist node inside the graph and
strictly decreases the termination measure. -/
theorem stepLoop_measure_decreases (users : Nat → List Nat)
    (supported canProp : Nat → Nat → Bool) (needsFurther : Nat → Bool)
    (isRoot : Nat → Bool) (allNodes : Finset Nat) (s s2 : WorkState)
    (hclosed : ∀ n ∈ allNodes, ∀ u ∈ users n, u ∈ allNodes)
    (hinv : ∀ p ∈ s.worklist, p.1 ∈ allNodes)
    (hstep : stepLoop users supported canProp needsFurther isRoot s =
      some s2) :
    (∀ p ∈ s2.worklist, p.1 ∈ allNodes) ∧
    loopMeasure users allNodes s2 < loopMeasure users allNodes s := by
  obtain ⟨wl, otn, iz⟩ := s
  cases wl with
  | nil => simp [stepLoop] at hstep
  | cons hd rest =>
    obtain ⟨node, parent⟩ := hd
    have hnode : node ∈ allNodes := hinv (node, parent) (List.mem_cons_self _ _)
    have hrest : ∀ p ∈ rest, p.1 ∈ allNodes := fun p hp =>
      hinv p (List.mem_cons_of_mem _ hp)
    have hpushlen : ((users node).filter
          (fun u => supported u node && canProp u node)).length ≤
        (users node).length := List.length_filter_le _ _
    have hUb : (users node).length ≤ allNodes.sup fun m => (users m).length :=
      @Finset.le_sup ℕ ℕ _ _ allNodes (fun m => (users m).length) node hnode
    have hpushlen2 : (((users node).filter
          (fun u => supported u node && canProp u node)).map
        (fun u => (u, node))).length ≤ (users node).length := by
      simpa using hpushlen
    have hpushmem : ∀ p ∈ ((users node).filter
          (fun u => supported u node && canProp u node)).map
        (fun u => (u, node)), p.1 ∈ allNodes := by
      intro p hp
      obtain ⟨u, hu, rfl⟩ := List.mem_map.mp hp
      exact hclosed node hnode u (List.mem_of_mem_filter hu)
    cases iz with
    | true =>
      rw [stepLoop] at hstep
      rw [if_neg (by simp)] at hstep
      simp only [if_pos rfl] at hstep
      split_ifs at hstep <;>
        simp only [Option.some.injEq] at hstep <;> subst hstep
      · exact ⟨hrest, by simp [loopMeasure]; omega⟩
      · exact ⟨hrest, by simp [loopMeasure]; omega⟩
      · refine ⟨?_, ?_⟩
        · intro p hp
          rcases List.mem_append.mp hp with h | h
          · exact hrest p h
          · exact hpushmem p h
        · simp [loopMeasure, List.length_append]
          omega
    | false =>
      rw [stepLoop] at hstep
      by_cases hmem : node ∈ otn
      · rw [if_pos ⟨hmem, rfl⟩] at hstep
        simp only [Option.some.injEq] at hstep
        subst hstep
        exact ⟨hrest, by simp [loopMeasure]⟩
      · rw [if_neg (by simp [hmem])] at hstep
        simp only [Bool.false_eq_true, if_false] at hstep
        have hsd : allNodes \ insert node otn = (allNodes \ otn).erase node :=
          Finset.sdiff_insert allNodes otn node
        have hmem2 : node ∈ allNodes \ otn := Finset.mem_sdiff.mpr ⟨hnode, hmem⟩
        have hsum : ((allNodes \ otn).erase node).sum
              (fun n => (users n).length + 1) + ((users node).length + 1) =
            (allNodes \ otn).sum (fun n => (users n).length + 1) :=
          Finset.sum_erase_add _ _ hmem2
        split_ifs at hstep <;>
          simp only [Option.some.injEq] at hstep <;> subst hstep
        · refine ⟨hrest, ?_⟩
          simp only [loopMeasure, hsd, List.length_cons, if_neg
            (by simp : ¬ (false = true)), WorkState.worklist, WorkState.oldToNew,
            WorkState.iterZero]
          omega
        · refine ⟨hrest, ?_⟩
          simp only [loopMeasure, hsd, List.length_cons, if_neg
            (by simp : ¬ (false = true)), WorkState.worklist, WorkState.oldToNew,
            WorkState.iterZero]
          omega
        · refine ⟨?_, ?_⟩
          · intro p hp
            rcases List.mem_append.mp hp with h | h
            · exact hrest p h
            · exact hpushmem p h
          · simp only [loopMeasure, hsd, List.length_cons, List.length_append,
              if_neg (by simp : ¬ (false = true)), WorkState.worklist,
              WorkState.oldToNew, WorkState.iterZero]
            omega

/-- Bounded-measure states reach loop exit. -/
theorem iterateStep_reaches_none (users : Nat → List Nat)
    (supported canProp : Nat → Nat → Bool) (needsFurther : Nat → Bool)
    (isRoot : Nat → Bool) (allNodes : Finset Nat)
    (hclosed : ∀ n ∈ allNodes, ∀ u ∈ users n, u ∈ allNodes) :
    ∀ N s, loopMeasure users allNodes s ≤ N →
      (∀ p ∈ s.worklist, p.1 ∈ allNodes) →
      ∃ k, iterateStep users supported canProp needsFurther isRoot k s =
        none := by
  intro N
  induction N with
  | zero =>
    intro s hm hinv
    have hwl : s.worklist = [] := by
      have : s.worklist.length = 0 := by
        simp only [loopMeasure] at hm; omega
      exact List.length_eq_zero.mp this
    refine ⟨1, ?_⟩
    obtain ⟨wl, otn, iz⟩ := s
    simp only at hwl
    subst hwl
    rfl
  | succ N ih =>
    intro s hm hinv
    by_cases hwl : s.worklist = []
    · refine ⟨1, ?_⟩
      obtain ⟨wl, otn, iz⟩ := s
      simp only at hwl
      subst hwl
      rfl
    · obtain ⟨s2, hstep⟩ :=
        stepLoop_some users supported canProp needsFurther isRoot s hwl
      obtain ⟨hinv2, hlt⟩ := stepLoop_measure_decreases users supported canProp
        needsFurther isRoot allNodes s s2 hclosed hinv hstep
      obtain ⟨k, hk⟩ := ih s2 (by omega) hinv2
      refine ⟨k + 1, ?_⟩
      rw [iterateStep, hstep]
      exact hk

/-- C9 (amended): for every finite graph the worklist loop of
`PropagateOnUsers` terminates, and a popped node already present in
`OldToNew` is skipped without being reprocessed; however the worklist need
not strictly shrink at each iteration (processing a node with accepted
users pushes one pair per user) — instead the combined measure over
(pending first iteration, unrewritten nodes, worklist length) strictly
decreases each iteration, which yields termination. -/
theorem propagateOnUsers_terminates (users : Nat → List Nat)
    (supported canProp : Nat → Nat → Bool) (needsFurther : Nat → Bool)
    (isRoot : Nat → Bool) (allNodes : Finset Nat) (s : WorkState)
    (hclosed : ∀ n ∈ allNodes, ∀ u ∈ users n, u ∈ allNodes)
    (hinv : ∀ p ∈ s.worklist, p.1 ∈ allNodes) :
    (∃ k, iterateStep users supported canProp needsFurther isRoot k s =
      none) ∧
    (∀ node parent rest, s.worklist = (node, parent) :: rest →
      node ∈ s.oldToNew → s.iterZero = false →
      stepLoop users supported canProp needsFurther isRoot s =
        some ⟨rest, s.oldToNew, s.iterZero⟩) ∧
    (∀ s2, stepLoop users supported canProp needsFurther isRoot s = some s2 →
      loopMeasure users allNodes s2 < loopMeasure users allNodes s) := by
  refine ⟨iterateStep_reaches_none users supported canProp needsFurther isRoot
      allNodes hclosed (loopMeasure users allNodes s) s le_rfl hinv, ?_, ?_⟩
  · intro node parent rest hwl hmem hiz
    obtain ⟨wl, otn, iz⟩ := s
    simp only at hwl hmem hiz
    subst hwl
    subst hiz
    rw [stepLoop, if_pos ⟨hmem, rfl⟩]
  · intro s2 hstep
    exact (stepLoop_measure_decreases users supported canProp needsFurther
      isRoot allNodes s s2 hclosed hinv hstep).2

/-- Instantiation of `propagateOnUsers_terminates` on a concrete graph:
nodes `{0, 1, 2}`, node 0's users are 1 and 2, everything supported. -/
theorem propagateOnUsers_terminates_witness :
    (∃ k, iterateStep (fun n => if n = 0 then [1, 2] else [])
        (fun _ _ => true) (fun _ _ => true) (fun _ => true) (fun _ => false) k
        ⟨[(0, 5)], ∅, false⟩ = none) ∧
    (∀ node parent rest,
        ([((0 : Nat), (5 : Nat))] : List (Nat × Nat)) = (node, parent) :: rest →
      node ∈ (∅ : Finset Nat) → false = false →
      stepLoop (fun n => if n = 0 then [1, 2] else []) (fun _ _ => true)
          (fun _ _ => true) (fun _ => true) (fun _ => false)
          ⟨[(0, 5)], ∅, false⟩ = some ⟨rest, ∅, false⟩) ∧
    (∀ s2, stepLoop (fun n => if n = 0 then [1, 2] else []) (fun _ _ => true)
          (fun _ _ => true) (fun _ => true) (fun _ => false)
          ⟨[(0, 5)], ∅, false⟩ = some s2 →
      loopMeasure (fun n => if n = 0 then [1, 2] else []) {0, 1, 2} s2 <
        loopMeasure (fun n => if n = 0 then [1, 2] else []) {0, 1, 2}
          ⟨[(0, 5)], ∅, false⟩) :=
  propagateOnUsers_terminates (fun n => if n = 0 then [1, 2] else [])
    (fun _ _ => true) (fun _ _ => true) (fun _ => true) (fun _ => false)
    {0, 1, 2} ⟨[(0, 5)], ∅, false⟩ (by decide) (by decide)

/-- C9 counterexample: the worklist does not strictly shrink.  Popping node
0 (not yet rewritten, two supported users) leaves a worklist of length 2
where the previous worklist had length 1. -/
theorem propagateOnUsers_worklist_grows :
    stepLoop (fun _ => [1, 2]) (fun _ _ => true) (fun _ _ => true)
        (fun _ => true) (fun _ => false) ⟨[(0, 5)], ∅, false⟩ =
      some ⟨[(1, 0), (2, 0)], {0}, false⟩ ∧
    ((2 : Nat) > [((0 : Nat), (5 : Nat))].length) := by
  constructor
  · decide
  · decide

/-- The three side tables of the pass involved in the lookup invariant:
`old_to_new_instrs_`, `instr_to_dim_map_` (keyed by the original
instruction) and `instr_to_dim_permute_map_` (keyed by the rewritten
instruction). -/
structure TableState where
  oldToNew : Nat → Option Nat
  dimMap : Nat → Option (Nat × Nat)
  permuteMap : Nat → Option (List Nat)

/-- Point update of a table. -/
def updateFn {β : Type} (f : Nat → Option β) (k : Nat) (v : β) :
    Nat → Option β :=
  fun x => if x = k then some v else f x

/-- The six sites at which the pass records a rewrite, with the data each
site's assignments write: the elementwise path of `Propagate` (lines
898-902), the reduce path (949-950, no permute entry), the
reduce-window/select-and-scatter path (1195-1200), `PropagateOnConv`
(1609-1617), `PropagateOnBackpropFilterConv` (1899-1905, no permute
entry), and the seed rewrite of `PerformSpaceToBatchOnConvolution`
(2188-2195). -/
inductive RewriteSite where
  | elementwise (consumer newConsumer : Nat) (dimMapVal : Nat × Nat)
      (producerPermute : List Nat)
  | reduce (consumer newConsumer : Nat) (dimMapVal : Nat × Nat)
  | reduceWindow (consumer newConsumer : Nat) (dimMapVal : Nat × Nat)
      (operandPermute : List Nat)
  | convForward (convolution newConv : Nat) (dimMapVal : Nat × Nat)
      (transposeDims : List Nat)
  | backpropFilter (convolution newConv : Nat) (dimMapVal : Nat × Nat)
  | initialConv (convolution newConv : Nat) (dimMapVal : Nat × Nat)
      (transposeDims : List Nat)

/-- The original instruction a rewrite site rewrites. -/
def RewriteSite.oldInstr : RewriteSite → Nat
  | .elementwise consumer _ _ _ => consumer
  | .reduce consumer _ _ => consumer
  | .reduceWindow consumer _ _ _ => consumer
  | .convForward convolution _ _ _ => convolution
  | .backpropFilter convolution _ _ => convolution
  | .initialConv convolution _ _ _ => convolution

/-- The rewritten instruction a rewrite site produces. -/
def RewriteSite.newInstr : RewriteSite → Nat
  | .elementwise _ newConsumer _ _ => newConsumer
  | .reduce _ newConsumer _ => newConsumer
  | .reduceWindow _ newConsumer _ _ => newConsumer
  | .convForward _ newConv _ _ => newConv
  | .backpropFilter _ newConv _ => newConv
  | .initialConv _ newConv _ _ => newConv

/-- The table assignments each rewrite site performs, together with the
needs-further-propagation verdict the surrounding `Propagate` call reports
for it (elementwise, reduce-window/select-and-scatter and forward
convolutions: `true`; reduce and backprop-filter convolutions: `false`;
the seed rewrite hands its users directly to `PropagateOnUsers`). -/
def applyRewriteSite (s : TableState) : RewriteSite → TableState × Bool
  | .elementwise consumer newConsumer dimMapVal producerPermute =>
    ({ oldToNew := updateFn s.oldToNew consumer newConsumer,
       dimMap := updateFn s.dimMap consumer dimMapVal,
       permuteMap := updateFn s.permuteMap newConsumer producerPermute },
     true)
  | .reduce consumer newConsumer dimMapVal =>
    ({ oldToNew := updateFn s.oldToNew consumer newConsumer,
       dimMap := updateFn s.dimMap consumer dimMapVal,
       permuteMap := s.permuteMap },
     false)
  | .reduceWindow consumer newConsumer dimMapVal operandPermute =>
    ({ oldToNew := updateFn s.oldToNew consumer newConsumer,
       dimMap := updateFn s.dimMap consumer dimMapVal,
       permuteMap := updateFn s.permuteMap newConsumer operandPermute },
     true)
  | .convForward convolution newConv dimMapVal transposeDims =>
    ({ oldToNew := updateFn s.oldToNew convolution newConv,
       dimMap := updateFn s.dimMap convolution dimMapVal,
       permuteMap := updateFn s.permuteMap newConv transposeDims },
     true)
  | .backpropFilter convolution newConv dimMapVal =>
    ({ oldToNew := updateFn s.oldToNew convolution newConv,
       dimMap := updateFn s.dimMap convolution dimMapVal,
       permuteMap := s.permuteMap },
     false)
  | .initialConv convolution newConv dimMapVal transposeDims =>
    ({ oldToNew := updateFn s.oldToNew convolution newConv,
       dimMap := updateFn s.dimMap convolution dimMapVal,
       permuteMap := updateFn s.permuteMap newConv transposeDims },
     true)

/-- The lookup invariant: every instruction with an `OldToNew` entry also
has a `DimMap` entry, so the `instr_to_dim_map_` lookups of `BatchToSpace`
(line 1270) and of the propagation steps never miss. -/
def TablesConsistent (s : TableState) : Prop :=
  ∀ k, (s.oldToNew k).isSome → (s.dimMap k).isSome

/-- C10: every rewrite site records `OldToNew` and `DimMap` together, so
the consistency invariant is preserved by every site; and whenever the
rewrite reports that further propagation is needed, the rewritten
instruction has a `PermuteMap` entry, so the `instr_to_dim_permute_map_`
lookups of `BatchToSpace` (line 1281) and of subsequent propagation steps
never miss. -/
theorem rewriteSites_preserve_invariant (s : TableState) (site : RewriteSite)
    (hinv : TablesConsistent s) :
    TablesConsistent (applyRewriteSite s site).1 ∧
    ((applyRewriteSite s site).2 = true →
      ((applyRewriteSite s site).1.permuteMap site.newInstr).isSome) := by
  cases site <;> constructor
  all_goals
    first
      | (intro k hk
         simp only [applyRewriteSite, updateFn] at hk ⊢
         split_ifs at hk ⊢ with h
         · simp
         · exact hinv k hk)
      | (intro hflag
         simp only [applyRewriteSite] at hflag ⊢
         first
           | (simp [RewriteSite.newInstr, updateFn]; done)
           | cases hflag)

/-- Instantiation of `rewriteSites_preserve_invariant` on the empty table
state and an elementwise rewrite site. -/
theorem rewriteSites_preserve_invariant_witness :
    TablesConsistent (applyRewriteSite ⟨fun _ => none, fun _ => none,
        fun _ => none⟩ (.elementwise 0 1 (0, 1) [0, 1])).1 ∧
    ((applyRewriteSite ⟨fun _ => none, fun _ => none, fun _ => none⟩
        (.elementwise 0 1 (0, 1) [0, 1])).2 = true →
      ((applyRewriteSite ⟨fun _ => none, fun _ => none, fun _ => none⟩
          (.elementwise 0 1 (0, 1) [0, 1])).1.permuteMap
        (RewriteSite.elementwise 0 1 (0, 1) [0, 1]).newInstr).isSome) :=
  rewriteSites_preserve_invariant ⟨fun _ => none, fun _ => none, fun _ => none⟩
    (.elementwise 0 1 (0, 1) [0, 1]) (fun k hk => by simp at hk)

end SpaceToBatch
